import Mathlib

/-!
Verification development for the patch1 repository (a Synth1 patch-library
manager).  The Python sources under `src/` are shallowly embedded below:
pure functions become Lean functions over `List Char` (text) and `List Nat`
(bytes), file I/O becomes functions from file contents to results, and
Python exceptions become `Except` values.  Machine integers are modelled as
`Int`/`Nat` with explicit range checks where `struct.pack` would raise.
-/

namespace Patch1

/-! ## Generic helpers: Python string/list primitives -/

/-- `s.split(sep)` for a single-character separator (Python keeps empty
pieces and always returns at least one piece). -/
def pySplitChar (sep : Char) : List Char → List (List Char)
  | [] => [[]]
  | c :: rest =>
    if c = sep then [] :: pySplitChar sep rest
    else
      match pySplitChar sep rest with
      | [] => [[c]]
      | g :: gs => (c :: g) :: gs

/-- `sep.join(pieces)` for a single-character separator. -/
def joinSep (sep : Char) : List (List Char) → List Char
  | [] => []
  | [x] => x
  | x :: xs => x ++ sep :: joinSep sep xs

/-- Prepend a character to the first piece of a split result. -/
def consHead (c : Char) : List (List Char) → List (List Char)
  | [] => [[c]]
  | g :: gs => (c :: g) :: gs

/-- Fuelled worker for `s.split(sep)` with a general (nonempty) separator. -/
def pySplitSeqGo (sep : List Char) : Nat → List Char → List (List Char)
  | 0, s => [s]
  | fuel + 1, s =>
    if sep.isPrefixOf s ∧ sep ≠ [] then
      [] :: pySplitSeqGo sep fuel (s.drop sep.length)
    else
      match s with
      | [] => [[]]
      | c :: rest => consHead c (pySplitSeqGo sep fuel rest)

/-- Python `s.split(sep)`: raises `ValueError` on an empty separator. -/
def pySplitStr (s sep : List Char) : Except String (List (List Char)) :=
  if sep = [] then .error "ValueError: empty separator"
  else .ok (pySplitSeqGo sep (s.length + 1) s)

/-! ## data.py: tag-string helpers -/

/-- `data.encode_tags(tags, old_tags)`: appends the tags of `tags` that are
not already present in the `|`-separated string `old_tags`. -/
def encode_tags (tags : List (List Char)) (old_tags : List Char) : List Char :=
  if old_tags.length > 0 then
    let old_tagsl := pySplitChar '|' old_tags
    let tags2 := tags.filter (fun t => !(old_tagsl.contains t))
    (old_tags ++ (if tags2.length > 0 then ['|'] else [])) ++ joinSep '|' tags2
  else
    old_tags ++ joinSep '|' tags

/-- `data.tags_to_list(tags)`.  The source reads
`_TAGS_SEP.split(tags)`, i.e. the one-character string `"|"` is split
using `tags` as the separator (and Python raises on an empty separator). -/
def tags_to_list (tags : List Char) : Except String (List (List Char)) :=
  pySplitStr ['|'] tags

/-! ## data.py: PatchDatabase model

A row of the patch `DataFrame` holds the metadata columns
(`META_DF_COLS = ['bank', 'num', 'patch_name', 'color', 'ver', 'tags']`)
and the parameter vector.  `num` and `color` are pandas categoricals with
fixed category lists (`PATCH_NUMS`, `COLORS`): values outside the
categories become `NaN`, modelled by `Option`. -/

structure PatchRow where
  bank : String
  num : Option String
  patch_name : String
  color : Option String
  ver : String
  tags : String
  params : List Nat
deriving Repr, DecidableEq

/-- The metadata projection `self._df.loc[mask][META_DF_COLS]` of one row. -/
def metaOfRow (r : PatchRow) :
    String × Option String × String × Option String × String × String :=
  (r.bank, r.num, r.patch_name, r.color, r.ver, r.tags)

/-- Database state: the patch table, the optional fitted classifier
(opaque: its numeric content is produced by scikit-learn from a random
train/test split and is irrelevant to every claim; only presence matters),
and the two modified flags.  The parallel `_tags` dummy table is derived
from the `tags` strings on demand (`refresh`). -/
structure PatchDB where
  rows : List PatchRow
  knn : Option Unit
  modified_db : Bool
  modified_cls : Bool
deriving Repr, DecidableEq

/-- Errors raised by the database operations. -/
inductive DbErr where
  /-- `KeyError` from `self._tags[tag]` on a tag with no column. -/
  | keyErrorTag (t : String)
  /-- `KeyError` from `df.loc[True]`: `np.logical_and.reduce([])` collapses
  to the scalar identity `True`, which is not a valid row label. -/
  | keyErrorLoc
  /-- `Exception('Add some tags and try again.')`. -/
  | noTags
  /-- `AssertionError('Please create a classifier model first.')`. -/
  | noModel
deriving Repr, DecidableEq

/-- `Series.str.get_dummies('|')` token list of one tag string: the string
split on `|` with empty tokens discarded (pandas drops the empty token). -/
def splitTags (s : String) : List String :=
  ((pySplitChar '|' s.data).filter (fun t => !t.isEmpty)).map String.mk

/-- The columns of the `_tags` dummy table: all distinct tokens. -/
def tagColumns (db : PatchDB) : List String :=
  ((db.rows.map (fun r => splitTags r.tags)).flatten).dedup

/-- The boolean mask `self._tags[tag] == 1` over the rows. -/
def tagMask (db : PatchDB) (t : String) : List Bool :=
  db.rows.map (fun r => (splitTags r.tags).contains t)

/-- The `self._tags[tag]` lookups: each missing column raises `KeyError`. -/
def lookupMasks (db : PatchDB) : List String → Except DbErr (List (List Bool))
  | [] => .ok []
  | t :: ts =>
    if (tagColumns db).contains t then do
      let ms ← lookupMasks db ts
      .ok (tagMask db t :: ms)
    else .error (.keyErrorTag t)

/-- `PatchDatabase.find_patches_by_tags`:
`self._df.loc[np.logical_and.reduce([*(self._tags[tag] == 1 for tag in tags)])][META_DF_COLS]`.
For an empty tag list `np.logical_and.reduce([])` is the scalar `True` and
`df.loc[True]` raises `KeyError`. -/
def find_patches_by_tags (db : PatchDB) (tags : List String) :
    Except DbErr (List (String × Option String × String × Option String × String × String)) :=
  match lookupMasks db tags with
  | .error e => .error e
  | .ok [] => .error .keyErrorLoc
  | .ok (m :: ms) =>
    .ok (((db.rows.zip
        (ms.foldl (fun a b => a.zipWith (fun x y => x && y) b) m)).filter
          (fun p => p.2)).map (fun p => metaOfRow p.1))

/-- String-level wrapper of `encode_tags` (for tag columns as `String`). -/
def encodeTagsStr (ts : List String) (old : String) : String :=
  ⟨encode_tags (ts.map String.data) old.data⟩

/-- `PatchDatabase.train_classifier` with its `@volatile_cls` wrapper.
The method raises before touching any state when no patch is tagged;
on success it stores a fitted pipeline (opaque here) and the decorator
sets `modified_cls`.  The returned held-out accuracy is not modelled. -/
def train_classifier (db : PatchDB) : Except DbErr Unit × PatchDB :=
  if (db.rows.filter (fun r => !(r.tags == ""))).length = 0 then
    (.error .noTags, db)
  else
    (.ok (), { db with knn := some (), modified_cls := true })

/-- `PatchDatabase.classify_tags` with its `@volatile_db` wrapper.  The
assert on `self._knn` fires before any mutation; the per-patch predicted
tag list (scikit-learn) is abstracted as the `predict` argument and merged
with `encode_tags` exactly as in the source. -/
def classify_tags (predict : PatchRow → List String) (db : PatchDB) :
    Except DbErr PatchDB :=
  match db.knn with
  | none => .error .noModel
  | some _ =>
    .ok { db with
          rows := db.rows.map (fun r => { r with tags := encodeTagsStr (predict r) r.tags }),
          modified_db := true }

/-- The two stores `to_disk` may write (`db` via HDF, `cls` via pickle). -/
inductive StoreWrite where
  | dbStore
  | clsStore
deriving Repr, DecidableEq

/-- `PatchDatabase.to_disk`: writes the patch store when `modified_db` is
set and the classifier store when a classifier exists and `modified_cls`
is set.  Neither flag is cleared and no other state changes. -/
def to_disk (db : PatchDB) : PatchDB × List StoreWrite :=
  (db,
    (if db.modified_db then [StoreWrite.dbStore] else []) ++
      (if db.knn.isSome && db.modified_cls then [StoreWrite.clsStore] else []))

/-! ## common.py constants -/

/-- `PARAM_VALS`: the 99 Synth1 parameter defaults. -/
def PARAM_VALS : List Nat :=
  [2, 1, 64, 81, 1, 64, 0, 0, 64, 0, 0, 64, 0, 0, 1, 0, 64, 32, 64, 81, 14, 128,
   64, 0, 1, 64, 64, 107, 64, 107, 64, 1, 0, 11, 64, 8, 40, 20, 0, 0, 12, 2, 1,
   64, 0, 0, 5, 1, 64, 64, 74, 74, 64, 64, 50, 64, 40, 1, 1, 0, 64, 64, 64, 64,
   2, 1, 1, 0, 0, 0, 0, 0, 64, 0, 0, 22, 0, 0, 0, 64, 64, 64, 0, 66, 64, 24,
   45057, 44, 45057, 43, 64, 0, 0, 2, 16, 0, 1, 1, 64]

/-- `NUM_PARAMS = len(PARAM_VALS)`. -/
def NUM_PARAMS : Nat := PARAM_VALS.length

def COLOR_DEF : String := "default"

def VER_DEF : String := "112"

def NAME_DEF : String := "initial sound"

/-! ## patchfiles.py: write_patchfile -/

/-- Little-endian decimal digit characters of `n` (fuelled; `fuel ≥ n`). -/
def natPrintAux : Nat → Nat → List Char
  | 0, _ => []
  | _ + 1, 0 => []
  | fuel + 1, n => Nat.digitChar (n % 10) :: natPrintAux fuel (n / 10)

/-- The decimal rendering `'%i' % n` of a nonnegative integer. -/
def natPrint (n : Nat) : List Char :=
  if n = 0 then ['0'] else (natPrintAux n n).reverse

/-- One rendered parameter line `'%i,%i' % (i, value)` (without newline). -/
def paramLineOut (i v : Nat) : List Char := natPrint i ++ ',' :: natPrint v

/-- Python `int(s)` on an all-digit string. -/
def charsToNat (l : List Char) : Nat :=
  l.foldl (fun a c => 10 * a + (c.toNat - 48)) 0

/-- `patchfiles.write_patchfile` as a function from the record fields to
the text written:
`META_SYNTAX % (patch['name'], patch['color'], patch['ver'])` followed by
`PARAM_SYNTAX % (i, patch[PARAM_NAMES[i]])` for `i in range(len(PARAM_NAMES))`
(the parameter vector has exactly `NUM_PARAMS` entries). -/
def write_patchfile (name color ver : String) (params : List Nat) : List Char :=
  name.data ++ '\n' ::
    ("color".data ++ '=' ::
      (color.data ++ '\n' ::
        ("ver".data ++ '=' ::
          (ver.data ++ '\n' ::
            (params.enum.map (fun p => paramLineOut p.1 p.2 ++ ['\n'])).flatten))))

/-! ## patchfiles.py: read_patchfile

`read_patchfile` runs three `re.MULTILINE` patterns over the decoded text:
`RE_NAME = ^[^=,]+$` (searched once), `RE_META = ^(.+)=(.+)$` (findall)
and `RE_PARAM = ^([0-9]{1,2}),([0-9]+)$` (findall).  Since `.` and
`[0-9]` never match a newline and the patterns are anchored, the two
`findall`s scan line by line; `RE_NAME`'s character class does admit
newlines, so its search is modelled on the raw character positions. -/

/-- `[^=,]` of `RE_NAME`. -/
def nameRunPred (c : Char) : Bool := !(c = '=' || c = ',')

/-- The prefix of `l` that precedes the last `'\n'` of `l`, if any. -/
def beforeLastNewline : List Char → Option (List Char)
  | [] => none
  | c :: rest =>
    match beforeLastNewline rest with
    | some m => some (c :: m)
    | none => if c = '\n' then some [] else none

/-- Attempt to match `^[^=,]+$` (MULTILINE) at the start of `suffix`: the
greedy run of `[^=,]` characters is cut at the last position where `$`
matches — the end of the text if the run reaches it, otherwise the last
newline inside the run — and the match must be nonempty. -/
def matchName (suffix : List Char) : Option (List Char) :=
  let run := suffix.takeWhile nameRunPred
  if (suffix.dropWhile nameRunPred).isEmpty then
    if run.isEmpty then none else some run
  else
    match beforeLastNewline run with
    | some m => if m.isEmpty then none else some m
    | none => none

/-- Try `matchName` at each later line start (position after a `'\n'`). -/
def reNameGo : List Char → Option (List Char)
  | [] => none
  | c :: rest =>
    if c = '\n' then
      match matchName rest with
      | some m => some m
      | none => reNameGo rest
    else reNameGo rest

/-- `RE_NAME.search(patchfile)`: leftmost match of `^[^=,]+$` (MULTILINE),
trying position 0 first and then each position following a newline. -/
def reNameSearch (text : List Char) : Option (List Char) :=
  match matchName text with
  | some m => some m
  | none => reNameGo text

/-- Python `str.isspace` characters handled by `str.strip()` (the ASCII
ones; the records under consideration contain no exotic Unicode space). -/
def isPySpace (c : Char) : Bool :=
  c = ' ' || c = '\t' || c = '\n' || c = '\r' || c = '\x0b' || c = '\x0c'

/-- Python `str.strip()`. -/
def pyStrip (l : List Char) : List Char :=
  ((l.dropWhile isPySpace).reverse.dropWhile isPySpace).reverse

/-- Split a line at the last `'='` that leaves a nonempty remainder
(greedy backtracking of `^(.+)=(.+)$`). -/
def metaSplit : List Char → Option (List Char × List Char)
  | [] => none
  | c :: rest =>
    match metaSplit rest with
    | some (a, b) => some (c :: a, b)
    | none => if c = '=' ∧ rest ≠ [] then some ([], rest) else none

/-- Match of `RE_META = ^(.+)=(.+)$` against one line. -/
def metaLine (l : List Char) : Option (List Char × List Char) :=
  match metaSplit l with
  | some (a, b) => if a.isEmpty then none else some (a, b)
  | none => none

/-- `RE_META.findall(patchfile)`: the anchored newline-free pattern is
matched against each line in order. -/
def metaPairs (text : List Char) : List (List Char × List Char) :=
  (pySplitChar '\n' text).filterMap metaLine

/-- `{m[0]: m[1] for m in raw_meta}.get(key, dflt)`: later bindings of a
key overwrite earlier ones. -/
def metaLookup (pairs : List (List Char × List Char)) (key dflt : List Char) :
    List Char :=
  match pairs.reverse.find? (fun p => p.1 == key) with
  | some p => p.2
  | none => dflt

/-- `[0-9]+` (nonempty all-digit). -/
def allDigits (l : List Char) : Bool := !l.isEmpty && l.all Char.isDigit

/-- Match of `RE_PARAM = ^([0-9]{1,2}),([0-9]+)$` against one line; the
greedy one-or-two digit group is decided by the position of the comma. -/
def paramLine (l : List Char) : Option (Nat × Nat) :=
  match l with
  | c1 :: c2 :: rest2 =>
    if c2 = ',' then
      if c1.isDigit && allDigits rest2 then
        some (charsToNat [c1], charsToNat rest2)
      else none
    else
      match rest2 with
      | c3 :: rest3 =>
        if c3 = ',' then
          if c1.isDigit && c2.isDigit && allDigits rest3 then
            some (charsToNat [c1, c2], charsToNat rest3)
          else none
        else none
      | [] => none
  | _ => none

/-- Errors `read_patchfile` can raise: `PARAM_VALS[p[0]]` with an index
past the end (a 2-digit index can reach 99). -/
inductive RErr where
  | indexError
deriving Repr, DecidableEq

/-- One iteration of the parameter loop: look up the default
(`PARAM_VALS[p[0]]`, may raise `IndexError`) and store the value only
when it differs from its default. -/
def procOne (buf : List (Option Nat)) (p : Nat × Nat) :
    Except RErr (List (Option Nat)) :=
  match PARAM_VALS.get? p.1 with
  | none => .error .indexError
  | some d => .ok (if d = p.2 then buf else buf.set p.1 (some p.2))

/-- The record returned by `patchfiles.read_patchfile`:
`((bank, num, name, color, ver), params)` where unset parameters are
`numpy.nan` (`none`). -/
structure ReadPatch where
  bank : String
  num : String
  name : List Char
  color : List Char
  ver : List Char
  params : List (Option Nat)
deriving Repr, DecidableEq

/-- `patchfiles.read_patchfile` over the decoded text.  `bank` is the
parent-directory name and `num` the first three characters of the file
name; both come from the path, not the content, and are passed through. -/
def read_patchfile (bank num : String) (text : List Char) : Except RErr ReadPatch :=
  let name :=
    match reNameSearch text with
    | none => NAME_DEF.data
    | some m => pyStrip m
  let pairs := metaPairs text
  let color := metaLookup pairs ("color".data) (COLOR_DEF.data)
  let ver := metaLookup pairs ("ver".data) (VER_DEF.data)
  let raw := (pySplitChar '\n' text).filterMap paramLine
  match raw.foldlM procOne (List.replicate NUM_PARAMS none) with
  | .error e => .error e
  | .ok ps => .ok ⟨bank, num, name, color, ver, ps⟩

/-- Fill unset parameter slots from the schema defaults
(`fillna(INIT_PATCH)`). -/
def fillParams (ps : List (Option Nat)) : List Nat :=
  List.zipWith (fun o d => o.getD d) ps PARAM_VALS

/-- Closed form of the parameter loop's result (used in the proofs):
slot `i` holds `some vᵢ` when `vᵢ` differs from its default, else the
original buffer entry. -/
def updEach : List Nat → List Nat → List (Option Nat) → List (Option Nat)
  | v :: vs, d :: ds, t :: ts => (if d = v then t else some v) :: updEach vs ds ts
  | _, _, _ => []

/-! ## synth1.py / sy2fxpreset.py: the vendor chunk encoder -/

/-- `PARAM_NAMES`: the 99 Synth1 parameter names, in order. -/
def PARAM_NAMES : List String :=
  ["osc1 shape", "osc2 shape", "osc2 pitch", "osc2 fine tune", "osc2 kbd track",
   "osc mix", "osc2 sync", "osc2 ring modulation", "osc pulse width",
   "osc key shift", "osc mod env on/off", "osc mod env amount",
   "osc mod env attack", "osc mod env decay", "filter type", "filter attack",
   "filter decay", "filter sustain", "filter release", "filter freq",
   "filter resonance", "filter amount", "filter kbd track", "filter saturation",
   "filter velocity switch", "amp attack", "amp decay", "amp sustain",
   "amp release", "amp gain", "amp velocity sens", "arpeggiator type",
   "arpeggiator oct range", "arpeggiator beat", "arpeggiator gate", "delay time",
   "delay feedback", "delay dry/wet", "play mode type", "portament time",
   "pitch bend range", "lfo1 destination", "lfo1 type", "lfo1 speed",
   "lfo1 depth", "osc1 FM", "lfo2 destination", "lfo2 type", "lfo2 speed",
   "lfo2 depth", "midi ctrl sens1", "midi ctrl sens2", "chorus delay time",
   "chorus depth", "chorus rate", "chorus feedback", "chorus level",
   "lfo1 on/off", "lfo2 on/off", "arpeggiator on/off", "equalizer tone",
   "equalizer freq", "equalizer level", "equalizer Q", "chorus type",
   "delay on/off", "chorus on/off", "lfo1 tempo sync", "lfo1 key sync",
   "lfo2 tempo sync", "lfo2 key sync", "osc mod dest", "osc1,2 fine tune",
   "unison mode", "portament auto mode", "unison detune", "osc1 detune",
   "effect on/off", "effect type", "effect control1", "effect control2",
   "effect level/mix", "delay type", "delay time spread", "unison pan spread",
   "unison pitch", "midi ctrl src1", "midi ctrl assign1", "midi ctrl src2",
   "midi ctrl assign2", "pan", "osc phase shift", "unison phase shift",
   "unison voice num", "polyphony", "osc1 sub gain", "osc1 sub shape",
   "osc1 sub octave", "delay tone"]

/-- The four parameters not stored in the XDR list. -/
def S1_IGNORE_PARAMS : List String :=
  ["midi ctrl src1", "midi ctrl assign1", "midi ctrl src2", "midi ctrl assign2"]

/-- `tuple(self.params.index(s) for s in S1_IGNORE_PARAMS)`. -/
def S1_IGNORE_IDX : List Nat :=
  S1_IGNORE_PARAMS.map (fun s => PARAM_NAMES.indexOf s)

/-- The fixed 32-byte filler standing in for the removed parameters. -/
def S1_IGNORED_FILLER : List Nat :=
  [0x00, 0x00, 0x00, 0x01, 0x00, 0x00, 0x00, 0x01,
   0xb0, 0x00, 0x00, 0x01, 0x00, 0x00, 0x00, 0x2c,
   0x00, 0x00, 0x00, 0x01, 0x00, 0x00, 0x00, 0x01,
   0xb0, 0x00, 0x00, 0x01, 0x00, 0x00, 0x00, 0x2b]

/-- Offset where the filler is spliced into the list buffer. -/
def S1_IGNORED_OFFSET : Nat := 0x2AC

/-- Errors of the chunk encoder: the explicit 99-parameter check
(`ValueError`), and `struct.error` from packing an out-of-range value. -/
inductive S1Err where
  | badLength (n : Nat)
  | packRange (x : Int)
deriving Repr, DecidableEq

/-- Big-endian bytes of a 32-bit word. -/
def toBytesBE4 (n : Nat) : List Nat :=
  [n / 2 ^ 24 % 256, n / 2 ^ 16 % 256, n / 2 ^ 8 % 256, n % 256]

/-- `xdrlib.Packer.pack_int`: `struct.pack('>l', x)` — two's-complement
big-endian 32-bit, raising `struct.error` outside the int32 range. -/
def packIntBytes (x : Int) : Except S1Err (List Nat) :=
  if -(2 ^ 31) ≤ x ∧ x < 2 ^ 31 then .ok (toBytesBE4 (x % 2 ^ 32).toNat)
  else .error (.packRange x)

/-- `xdrlib.Packer.pack_list(l, pack_int)`: `pack_uint(1)` before every
item and `pack_uint(0)` after the loop, appended to the packer buffer. -/
def packList (l : List Int) : Except S1Err (List Nat) := do
  let body ← l.foldlM (fun acc x => do
    let xb ← packIntBytes x
    pure (acc ++ [0, 0, 0, 1] ++ xb)) []
  pure (body ++ [0, 0, 0, 0])

/-- `numpy.delete(l, idxs)`: drop the elements at the given positions. -/
def npDelete {α : Type} (l : List α) (idxs : List Nat) : List α :=
  (l.enum.filter (fun p => !(idxs.contains p.1))).map (fun p => p.2)

/-- `b'Synth1 VST Chunk Data'` (21 bytes). -/
def SYNTH1_MAGIC : List Nat := "Synth1 VST Chunk Data".data.map Char.toNat

/-- `struct.pack(*s1_chunk_header(ver))` with format
`'>21s11xB527xB4xB2xB'` and values `(magic, 2, ver, 1, 1)`; `'B'` raises
for a value above 255. -/
def s1_chunk_header (ver : Nat) : Except S1Err (List Nat) :=
  if ver ≤ 255 then
    .ok (SYNTH1_MAGIC ++ List.replicate 11 0 ++ [2] ++ List.replicate 527 0 ++
      [ver] ++ List.replicate 4 0 ++ [1] ++ List.replicate 2 0 ++ [1])
  else .error (.packRange ver)

/-- `struct.pack(*s1_chunk_footer(ver))` with format
`'>1207xB3xB3xB7xB15xB3xB19x'` and values `(1, ver, 1, 1, 1, 0x40)`. -/
def s1_chunk_footer (ver : Nat) : Except S1Err (List Nat) :=
  if ver ≤ 255 then
    .ok (List.replicate 1207 0 ++ [1] ++ List.replicate 3 0 ++ [ver] ++
      List.replicate 3 0 ++ [1] ++ List.replicate 7 0 ++ [1] ++
      List.replicate 15 0 ++ [1] ++ List.replicate 3 0 ++ [0x40] ++
      List.replicate 19 0)
  else .error (.packRange ver)

/-- `del buf[a:b]`. -/
def pyDelRange (a b : Nat) (l : List Nat) : List Nat := l.take a ++ l.drop b

/-- `buf[i:i] = ins`. -/
def pyInsertAt (i : Nat) (ins l : List Nat) : List Nat :=
  l.take i ++ ins ++ l.drop i

/-- `buf[a:b] = buf[b-1 : a-1 : -1]` — reverse the byte range in place. -/
def pyRevRange (a b : Nat) (l : List Nat) : List Nat :=
  l.take a ++ ((l.drop a).take (b - a)).reverse ++ l.drop b

/-- `Synth1.make_fxp_chunk` (synth1.py): length check, drop the ignored
parameters, XDR-pack, then — in source order — strip the leading 4-byte
flag (`del list_buf[0x0:0x4]`), splice the filler at `0x2AC`, reverse the
little-endian key-shift field at `[0x48:0x4F]`, and wrap between header
and footer. -/
def make_fxp_chunk (params : List Int) (ver : Nat) : Except S1Err (List Nat) :=
  if params.length ≠ 99 then .error (.badLength params.length)
  else do
    let buf ← packList (npDelete params S1_IGNORE_IDX)
    let header ← s1_chunk_header ver
    let footer ← s1_chunk_footer ver
    pure (header ++
      pyRevRange 0x48 0x4F
        (pyInsertAt S1_IGNORED_OFFSET S1_IGNORED_FILLER (pyDelRange 0 4 buf)) ++
      footer)

/-- The claim-side description of the XDR-encoded 32-bit integer list:
a `1`-flag word before each value, a `0` terminator word after. -/
def xdrIntListSpec (l : List Int) : List Nat :=
  (l.map (fun x => [0, 0, 0, 1] ++ toBytesBE4 (x % 2 ^ 32).toNat)).flatten ++
    [0, 0, 0, 0]

/-- The claim-side list buffer: encode the 95 parameters left after
removing indices 86-89, drop the leading 4-byte word, splice the filler
at `0x2AC`, and reverse bytes `0x48`-`0x4E`. -/
def s1ListBufSpec (params : List Int) : List Nat :=
  pyRevRange 0x48 0x4F
    (pyInsertAt 0x2AC S1_IGNORED_FILLER
      ((xdrIntListSpec (npDelete params [86, 87, 88, 89])).drop 4))

/-! ## preset2fxp.py: the FXP container writer -/

/-- Errors of `write_fxp`: `struct.error` from an out-of-range `'>i'`
value, or a parameter list whose length differs from the `'>{n}f'`
format count. -/
inductive FxpErr where
  | packInt (x : Int)
  | packCount
deriving Repr, DecidableEq

/-- The fields shared by `Preset` and `ChunkPreset`. -/
structure FxpBase where
  plugin_id : Int
  plugin_version : Option Int
  label : String
  num_params : Option Nat

/-- A `Preset` (float parameter array) or `ChunkPreset` (opaque chunk). -/
inductive FxPreset where
  | params (base : FxpBase) (ps : List Float)
  | chunk (base : FxpBase) (ch : List Nat)

/-- `label.encode('latin1', errors='replace')`: code points above 255
become `'?'` (63). -/
def encodeLatin1 (s : String) : List Nat :=
  s.data.map (fun c => if c.toNat ≤ 255 then c.toNat else 63)

/-- `struct.pack('28s', b)`: truncate to, or zero-pad to, 28 bytes. -/
def pad28 (l : List Nat) : List Nat :=
  l.take 28 ++ List.replicate (28 - l.length) 0

/-- `struct.pack('>i', x)`. -/
def packI32 (x : Int) : Except FxpErr (List Nat) :=
  if -(2 ^ 31) ≤ x ∧ x < 2 ^ 31 then .ok (toBytesBE4 (x % 2 ^ 32).toNat)
  else .error (.packInt x)

def CHUNK_MAGIC : List Nat := "CcnK".data.map Char.toNat

def FX_MAGIC_PARAMS : List Nat := "FxCk".data.map Char.toNat

def FX_MAGIC_CHUNK : List Nat := "FPCh".data.map Char.toNat

/-- `preset2fxp.write_fxp` as a function from the preset to the bytes
written.  `FXP_HEADER_SIZE = 56`, `FXP_PREAMBEL_SIZE = 8`;
`struct.pack('>f', ·)` (IEEE-754 binary32, not modelled bit-for-bit) is
abstracted as the 4-byte encoder argument `f32`. -/
def write_fxp (f32 : Float → List Nat) (p : FxPreset) : Except FxpErr (List Nat) :=
  match p with
  | .params base ps =>
    let fx_version : Int := base.plugin_version.getD 1
    let num_params := base.num_params.getD ps.length
    let size : Int := (56 - 8) + 4 * (num_params : Int)
    do
      let sizeB ← packI32 size
      let idB ← packI32 base.plugin_id
      let verB ← packI32 fx_version
      let npB ← packI32 (num_params : Int)
      if ps.length ≠ num_params then .error .packCount
      else
        pure (CHUNK_MAGIC ++ sizeB ++ FX_MAGIC_PARAMS ++ toBytesBE4 1 ++ idB ++
          verB ++ npB ++ pad28 (encodeLatin1 base.label) ++ (ps.map f32).flatten)
  | .chunk base ch =>
    let fx_version : Int := base.plugin_version.getD 1
    let num_params := base.num_params.getD (ch.length / 4)
    let size : Int := (56 - 8) + 4 + (ch.length : Int)
    do
      let chunkSizeB ← packI32 (ch.length : Int)
      let sizeB ← packI32 size
      let idB ← packI32 base.plugin_id
      let verB ← packI32 fx_version
      let npB ← packI32 (num_params : Int)
      pure (CHUNK_MAGIC ++ sizeB ++ FX_MAGIC_CHUNK ++ toBytesBE4 1 ++ idB ++
        verB ++ npB ++ pad28 (encodeLatin1 base.label) ++ chunkSizeB ++ ch)

/-! ## data.py: bootstrap -/

/-- `PATCH_NUMS`: `'{:0>3}'.format(n)` for `n` in 1..128. -/
def PATCH_NUMS : List String :=
  (List.range 128).map (fun n =>
    String.mk (List.replicate (3 - (natPrint (n + 1)).length) '0' ++ natPrint (n + 1)))

/-- `COLORS` from common.py. -/
def COLORS : List String :=
  ["red", "blue", "green", "yellow", "magenta", "cyan", "default"]

/-- One candidate file seen by `bootstrap`: its bank (parent directory
name), its file name, and its decoded content. -/
structure SrcFile where
  bank : String
  fname : List Char
  content : List Char

/-- `re_file = '^[0-9]{3}\\.sy1$'` applied to the file name. -/
def fnameMatches (f : List Char) : Bool :=
  match f with
  | d1 :: d2 :: d3 :: rest =>
    d1.isDigit && d2.isDigit && d3.isDigit && (rest == ".sy1".data)
  | _ => false

/-- `PatchDatabase.bootstrap` over the directory's files: keep the files
whose name matches `re_file`, parse each with `read_patchfile` (the result
order of `imap_unordered` is arbitrary; the input order is as good a
representative as any since no claim depends on it), fill unset parameters
from the defaults, attach an empty tag string, cast `num`/`color` to their
fixed category lists (out-of-category values become `NaN`), and mark the
new database modified.  Any exception is caught and returned
(`except Exception as e: return e`), modelled as the `Except` error. -/
def bootstrap (files : List SrcFile) : Except RErr PatchDB :=
  let cands := files.filter (fun f => fnameMatches f.fname)
  match cands.mapM
      (fun f => read_patchfile f.bank (String.mk (f.fname.take 3)) f.content) with
  | .error e => .error e
  | .ok parsed =>
    .ok { rows := parsed.map (fun rp =>
            { bank := rp.bank,
              num := if PATCH_NUMS.contains rp.num then some rp.num else none,
              patch_name := String.mk rp.name,
              color := if COLORS.contains (String.mk rp.color) then
                  some (String.mk rp.color)
                else none,
              ver := String.mk rp.ver,
              tags := "",
              params := fillParams rp.params }),
          knn := none, modified_db := true, modified_cls := false }

/-- `Synth1.sanity_check` (synth1.py): reject files of fewer than four
lines, normalise the `color`/`ver` lines (lower-casing them or inserting
defaults), and drop a trailing empty line.  (This hook belongs to the
class-based pipeline; `patchfiles.read_patchfile`, used by `bootstrap`,
never calls it.) -/
def sanity_check (file : List Char) : Option (List Char) :=
  let lst := pySplitChar '\n' file
  if 4 ≤ lst.length then
    let color := (((lst.get? 1).getD []).map Char.toLower)
    let lst1 := if color.take 5 == ("color".data) then lst.set 1 color
      else lst.take 1 ++ [("color=default".data)] ++ lst.drop 1
    let ver := (((lst1.get? 2).getD []).map Char.toLower)
    let lst2 := if ver.take 3 == ("ver".data) then lst1.set 2 ver
      else lst1.take 2 ++ [("ver=113".data)] ++ lst1.drop 2
    let lst3 := if lst2.getLast? == some [] then lst2.dropLast else lst2
    some (joinSep '\n' lst3)
  else none

-- ===================================================================
-- ===========================  THEOREMS  ============================
-- ===================================================================

/-! ## Helper lemmas about split/join -/

theorem pySplitChar_no_sep (sep : Char) (x : List Char) (hx : sep ∉ x) :
    pySplitChar sep x = [x] := by
  induction x with
  | nil => rfl
  | cons c rest ih =>
    have hc : ¬ c = sep := by
      intro h; exact hx (h ▸ List.mem_cons_self c rest)
    have hrest : sep ∉ rest := fun h => hx (List.mem_cons_of_mem c h)
    simp [pySplitChar, hc, ih hrest]

theorem pySplitChar_append (sep : Char) (x s : List Char) (hx : sep ∉ x) :
    pySplitChar sep (x ++ sep :: s) = x :: pySplitChar sep s := by
  induction x with
  | nil => simp [pySplitChar]
  | cons c rest ih =>
    have hc : ¬ c = sep := by
      intro h; exact hx (h ▸ List.mem_cons_self c rest)
    have hrest : sep ∉ rest := fun h => hx (List.mem_cons_of_mem c h)
    have := ih hrest
    simp [pySplitChar, hc, List.append_eq, this]

theorem pySplitChar_joinSep (sep : Char) (l : List (List Char)) (hne : l ≠ [])
    (hfree : ∀ t ∈ l, sep ∉ t) :
    pySplitChar sep (joinSep sep l) = l := by
  induction l with
  | nil => exact absurd rfl hne
  | cons x rest ih =>
    cases rest with
    | nil =>
      simp only [joinSep]
      exact pySplitChar_no_sep sep x (hfree x (List.mem_cons_self x []))
    | cons y ys =>
      have hx : sep ∉ x := hfree x (List.mem_cons_self x (y :: ys))
      have hrest : ∀ t ∈ y :: ys, sep ∉ t := fun t ht =>
        hfree t (List.mem_cons_of_mem x ht)
      have hjoin : joinSep sep (x :: y :: ys) = x ++ sep :: joinSep sep (y :: ys) := rfl
      rw [hjoin, pySplitChar_append sep x _ hx, ih (by simp) hrest]

theorem joinSep_append (sep : Char) (a b : List (List Char)) (ha : a ≠ [])
    (hb : b ≠ []) :
    joinSep sep (a ++ b) = joinSep sep a ++ sep :: joinSep sep b := by
  induction a with
  | nil => exact absurd rfl ha
  | cons x rest ih =>
    cases rest with
    | nil =>
      cases b with
      | nil => exact absurd rfl hb
      | cons y ys => simp [joinSep]
    | cons y ys =>
      have h1 : joinSep sep ((x :: y :: ys) ++ b) =
          x ++ sep :: joinSep sep ((y :: ys) ++ b) := rfl
      have h2 : joinSep sep (x :: y :: ys) = x ++ sep :: joinSep sep (y :: ys) := rfl
      rw [h1, ih (by simp), h2]
      simp

theorem joinSep_ne_nil (sep : Char) (x : List Char) (l : List (List Char))
    (hx : x ≠ []) : joinSep sep (x :: l) ≠ [] := by
  cases l with
  | nil => simpa [joinSep] using hx
  | cons y ys =>
    simp only [joinSep]
    cases x with
    | nil => exact absurd rfl hx
    | cons c cs => simp

/-- C6: for every list of new tags and every well-formed `|`-separated
old-tags string (nonempty, `|`-free components), `encode_tags` returns the
old components followed by exactly the new tags not already present,
joined with `|`. -/
theorem encode_tags_adds_missing (tags : List (List Char)) (oldl : List (List Char))
    (hwf : ∀ t ∈ oldl, t ≠ [] ∧ '|' ∉ t) :
    encode_tags tags (joinSep '|' oldl) =
      joinSep '|' (oldl ++ tags.filter (fun t => !(oldl.contains t))) := by
  cases oldl with
  | nil =>
    simp [encode_tags, joinSep]
  | cons x rest =>
    have hx : x ≠ [] := (hwf x (List.mem_cons_self x rest)).1
    have hne : joinSep '|' (x :: rest) ≠ [] := joinSep_ne_nil '|' x rest hx
    have hlen : (joinSep '|' (x :: rest)).length > 0 := by
      cases h : joinSep '|' (x :: rest) with
      | nil => exact absurd h hne
      | cons c cs => simp
    have hsplit : pySplitChar '|' (joinSep '|' (x :: rest)) = x :: rest :=
      pySplitChar_joinSep '|' (x :: rest) (by simp) (fun t ht => (hwf t ht).2)
    simp only [encode_tags, if_pos hlen, hsplit]
    cases h2 : tags.filter (fun t => !((x :: rest).contains t)) with
    | nil =>
      simp [h2, joinSep]
    | cons u us =>
      rw [joinSep_append '|' (x :: rest) (u :: us) (by simp) (by simp)]
      simp

/-- Witness for C6: the two documented examples, obtained by instantiating
`encode_tags_adds_missing`. -/
theorem encode_tags_adds_missing_witness :
    encode_tags [("Lead".data)] ("Bass|Pad".data) = ("Bass|Pad|Lead".data) ∧
      encode_tags [("Bass".data)] ("Bass|Pad".data) = ("Bass|Pad".data) := by
  constructor
  · have h := encode_tags_adds_missing [("Lead".data)]
      [("Bass".data), ("Pad".data)] (by decide)
    have hj : joinSep '|' [("Bass".data), ("Pad".data)] = ("Bass|Pad".data) := by decide
    rw [hj] at h
    rw [h]
    decide
  · have h := encode_tags_adds_missing [("Bass".data)]
      [("Bass".data), ("Pad".data)] (by decide)
    have hj : joinSep '|' [("Bass".data), ("Pad".data)] = ("Bass|Pad".data) := by decide
    rw [hj] at h
    rw [h]
    decide

/-- C10 (code bug): `tags_to_list` splits the constant `"|"` by the
argument instead of the argument by `"|"`, so the encode/decode helpers do
not round-trip: decoding the encoding of `["Bass", "Lead"]` yields `["|"]`. -/
theorem tags_to_list_not_inverse :
    tags_to_list (encode_tags [("Bass".data), ("Lead".data)] []) =
        .ok [("|".data)] ∧
      [("|".data)] ≠ [("Bass".data), ("Lead".data)] := by
  constructor
  · rfl
  · decide

/-! ## Digit printing and parsing lemmas -/

theorem digitChar_isDigit (d : Nat) (h : d < 10) : (Nat.digitChar d).isDigit = true := by
  interval_cases d <;> decide

theorem digitChar_toNat (d : Nat) (h : d < 10) : (Nat.digitChar d).toNat = d + 48 := by
  interval_cases d <;> decide

theorem isDigit_ne_specials (c : Char) (h : c.isDigit = true) :
    c ≠ '\n' ∧ c ≠ '=' ∧ c ≠ ',' := by
  refine ⟨?_, ?_, ?_⟩ <;> (intro he; subst he; exact absurd h (by decide))

theorem natPrintAux_zero (fuel : Nat) : natPrintAux fuel 0 = [] := by
  cases fuel <;> rfl

theorem natPrintAux_digits (fuel n : Nat) :
    ∀ c ∈ natPrintAux fuel n, c.isDigit = true := by
  induction fuel generalizing n with
  | zero => intro c hc; simp [natPrintAux] at hc
  | succ f ih =>
    intro c hc
    cases n with
    | zero => simp [natPrintAux] at hc
    | succ m =>
      rcases List.mem_cons.mp hc with rfl | hc
      · exact digitChar_isDigit _ (Nat.mod_lt _ (by norm_num))
      · exact ih _ c hc

theorem natPrint_digits (n : Nat) : ∀ c ∈ natPrint n, c.isDigit = true := by
  unfold natPrint
  split
  · intro c hc
    rw [List.mem_singleton] at hc
    subst hc
    decide
  · intro c hc
    rw [List.mem_reverse] at hc
    exact natPrintAux_digits n n c hc

theorem natPrint_ne_nil (n : Nat) : natPrint n ≠ [] := by
  unfold natPrint
  split
  · simp
  · rename_i h0
    cases n with
    | zero => exact absurd rfl h0
    | succ m => simp [natPrintAux]

theorem charsToNat_append_digit (l : List Char) (c : Char) :
    charsToNat (l ++ [c]) = 10 * charsToNat l + (c.toNat - 48) := by
  unfold charsToNat
  rw [List.foldl_append]
  rfl

theorem charsToNat_natPrintAux (fuel n : Nat) (h : n ≤ fuel) :
    charsToNat (natPrintAux fuel n).reverse = n := by
  induction fuel generalizing n with
  | zero =>
    interval_cases n
    rfl
  | succ f ih =>
    cases n with
    | zero => simp [natPrintAux_zero]; rfl
    | succ m =>
      have hlt : (m + 1) / 10 < m + 1 := Nat.div_lt_self (Nat.succ_pos m) (by norm_num)
      have hrec : (m + 1) / 10 ≤ f := by omega
      rw [show natPrintAux (f + 1) (m + 1)
          = Nat.digitChar ((m + 1) % 10) :: natPrintAux f ((m + 1) / 10) from rfl]
      rw [List.reverse_cons, charsToNat_append_digit, ih _ hrec,
        digitChar_toNat _ (Nat.mod_lt _ (by norm_num))]
      omega

theorem charsToNat_natPrint (n : Nat) : charsToNat (natPrint n) = n := by
  unfold natPrint
  split
  · rename_i h0
    rw [h0]
    rfl
  · exact charsToNat_natPrintAux n n le_rfl

theorem natPrintAux_small (f n : Nat) (h1 : 1 ≤ n) (h2 : n < 10) (hf : 1 ≤ f) :
    natPrintAux f n = [Nat.digitChar n] := by
  cases f with
  | zero => omega
  | succ f =>
    cases n with
    | zero => omega
    | succ m =>
      show Nat.digitChar ((m + 1) % 10) :: natPrintAux f ((m + 1) / 10) = _
      rw [Nat.mod_eq_of_lt h2, Nat.div_eq_of_lt h2, natPrintAux_zero]

theorem natPrintAux_two (f n : Nat) (h1 : 10 ≤ n) (h2 : n < 100) (hf : 2 ≤ f) :
    natPrintAux f n = [Nat.digitChar (n % 10), Nat.digitChar (n / 10)] := by
  cases f with
  | zero => omega
  | succ f =>
    cases n with
    | zero => omega
    | succ m =>
      show Nat.digitChar ((m + 1) % 10) :: natPrintAux f ((m + 1) / 10) = _
      congr 1
      exact natPrintAux_small f ((m + 1) / 10) (by omega) (by omega) (by omega)

theorem natPrint_lt10 (n : Nat) (h : n < 10) : natPrint n = [Nat.digitChar n] := by
  by_cases h0 : n = 0
  · rw [h0]
    rfl
  · unfold natPrint
    rw [if_neg h0, natPrintAux_small n n (by omega) h (by omega)]
    rfl

theorem natPrint_two (n : Nat) (h1 : 10 ≤ n) (h2 : n < 100) :
    natPrint n = [Nat.digitChar (n / 10), Nat.digitChar (n % 10)] := by
  unfold natPrint
  rw [if_neg (by omega), natPrintAux_two n n h1 h2 (by omega)]
  rfl

theorem natPrint_no_specials (n : Nat) :
    ∀ c ∈ natPrint n, c ≠ '\n' ∧ c ≠ '=' ∧ c ≠ ',' :=
  fun c hc => isDigit_ne_specials c (natPrint_digits n c hc)

theorem paramLineOut_mem (i v : Nat) : ∀ c ∈ paramLineOut i v, c ≠ '\n' ∧ c ≠ '=' := by
  intro c hc
  unfold paramLineOut at hc
  rcases List.mem_append.mp hc with h | h
  · have h2 := natPrint_no_specials i c h
    exact ⟨h2.1, h2.2.1⟩
  · rcases List.mem_cons.mp h with rfl | h
    · exact ⟨by decide, by decide⟩
    · have h2 := natPrint_no_specials v c h
      exact ⟨h2.1, h2.2.1⟩

/-! ## Generic list lemmas for the text model -/

theorem takeWhile_append_all (p : Char → Bool) (a b : List Char)
    (h : ∀ x ∈ a, p x = true) : (a ++ b).takeWhile p = a ++ b.takeWhile p := by
  induction a with
  | nil => rfl
  | cons c cs ih =>
    have hc := h c (List.mem_cons_self c cs)
    simp only [List.cons_append, List.takeWhile_cons, hc, if_true]
    rw [ih (fun x hx => h x (List.mem_cons_of_mem c hx))]

theorem dropWhile_append_all (p : Char → Bool) (a b : List Char)
    (h : ∀ x ∈ a, p x = true) : (a ++ b).dropWhile p = b.dropWhile p := by
  induction a with
  | nil => rfl
  | cons c cs ih =>
    have hc := h c (List.mem_cons_self c cs)
    simp only [List.cons_append, List.dropWhile_cons, hc, if_true]
    exact ih (fun x hx => h x (List.mem_cons_of_mem c hx))

theorem append_cons_assoc {α : Type} (a b r : List α) (x y : α) :
    a ++ x :: (b ++ y :: r) = (a ++ x :: b) ++ y :: r := by simp

theorem filterMap_some_id {α : Type} (f : α → Option α) (l : List α)
    (h : ∀ x ∈ l, f x = some x) : l.filterMap f = l := by
  induction l with
  | nil => rfl
  | cons x xs ih =>
    rw [List.filterMap_cons, h x (List.mem_cons_self x xs),
      ih (fun y hy => h y (List.mem_cons_of_mem x hy))]

theorem set_append_len {α : Type} (a : List α) (x y : α) (b : List α) :
    (a ++ x :: b).set a.length y = a ++ y :: b := by
  induction a with
  | nil => rfl
  | cons c cs ih =>
    show c :: (cs ++ x :: b).set cs.length y = c :: (cs ++ y :: b)
    rw [ih]

theorem get?_append_len {α : Type} (a : List α) (x : α) (b : List α) :
    (a ++ x :: b).get? a.length = some x := by
  induction a with
  | nil => rfl
  | cons c cs ih =>
    show (cs ++ x :: b).get? cs.length = some x
    exact ih

/-! ## Splitting the written file into lines -/

theorem pySplitChar_flatten_map {β : Type} (sep : Char) (g : β → List Char)
    (l : List β) (h : ∀ x ∈ l, sep ∉ g x) :
    pySplitChar sep ((l.map (fun x => g x ++ [sep])).flatten) = l.map g ++ [[]] := by
  induction l with
  | nil => rfl
  | cons x xs ih =>
    simp only [List.map_cons, List.flatten_cons]
    rw [show (g x ++ [sep]) ++ (xs.map (fun y => g y ++ [sep])).flatten
        = g x ++ sep :: (xs.map (fun y => g y ++ [sep])).flatten from by simp]
    rw [pySplitChar_append sep (g x) _ (h x (List.mem_cons_self x xs)),
      ih (fun y hy => h y (List.mem_cons_of_mem x hy))]
    rfl

theorem write_lines (name color ver : String) (params : List Nat)
    (hn : '\n' ∉ name.data) (hc : '\n' ∉ color.data) (hv : '\n' ∉ ver.data) :
    pySplitChar '\n' (write_patchfile name color ver params) =
      name.data :: ("color".data ++ '=' :: color.data) ::
        ("ver".data ++ '=' :: ver.data) ::
        (params.enum.map (fun p => paramLineOut p.1 p.2) ++ [[]]) := by
  have hcl : '\n' ∉ "color".data ++ '=' :: color.data := by
    intro hm
    rcases List.mem_append.mp hm with h | h
    · exact absurd h (by decide)
    · rcases List.mem_cons.mp h with h | h
      · exact absurd h (by decide)
      · exact hc h
  have hvl : '\n' ∉ "ver".data ++ '=' :: ver.data := by
    intro hm
    rcases List.mem_append.mp hm with h | h
    · exact absurd h (by decide)
    · rcases List.mem_cons.mp h with h | h
      · exact absurd h (by decide)
      · exact hv h
  have hpl : ∀ p ∈ params.enum, '\n' ∉ paramLineOut p.1 p.2 := by
    intro p _ hm
    exact (paramLineOut_mem p.1 p.2 '\n' hm).1 rfl
  unfold write_patchfile
  rw [pySplitChar_append '\n' name.data _ hn]
  congr 1
  rw [append_cons_assoc, pySplitChar_append '\n' _ _ hcl]
  congr 1
  rw [append_cons_assoc, pySplitChar_append '\n' _ _ hvl]
  congr 1
  exact pySplitChar_flatten_map '\n' (fun p => paramLineOut p.1 p.2) params.enum hpl

/-! ## RE_NAME search on the written file -/

theorem beforeLastNewline_none (g : List Char) (hg : '\n' ∉ g) :
    beforeLastNewline g = none := by
  induction g with
  | nil => rfl
  | cons c cs ih =>
    have hc : ¬ c = '\n' := fun h => hg (h ▸ List.mem_cons_self c cs)
    have hcs := ih (fun h => hg (List.mem_cons_of_mem c h))
    simp [beforeLastNewline, hcs, hc]

theorem beforeLastNewline_append (a g : List Char) (ha : '\n' ∉ a) (hg : '\n' ∉ g) :
    beforeLastNewline (a ++ '\n' :: g) = some a := by
  induction a with
  | nil => simp [beforeLastNewline, beforeLastNewline_none g hg]
  | cons c cs ih =>
    have hcs := ih (fun h => ha (List.mem_cons_of_mem c h))
    simp [beforeLastNewline, hcs]

theorem matchName_clean (name good tail2 : List Char) (c0 : Char)
    (hnne : name ≠ []) (hnp : ∀ c ∈ name, nameRunPred c = true) (hnn : '\n' ∉ name)
    (hgp : ∀ c ∈ good, nameRunPred c = true) (hgn : '\n' ∉ good)
    (hc0 : nameRunPred c0 = false) :
    matchName (name ++ '\n' :: (good ++ c0 :: tail2)) = some name := by
  have hrun : (name ++ '\n' :: (good ++ c0 :: tail2)).takeWhile nameRunPred
      = name ++ '\n' :: good := by
    rw [takeWhile_append_all _ _ _ hnp]
    congr 1
    rw [List.takeWhile_cons_of_pos (by decide), takeWhile_append_all _ _ _ hgp,
      List.takeWhile_cons_of_neg (by simp [hc0])]
    simp
  have hdrop : (name ++ '\n' :: (good ++ c0 :: tail2)).dropWhile nameRunPred
      = c0 :: tail2 := by
    rw [dropWhile_append_all _ _ _ hnp, List.dropWhile_cons_of_pos (by decide),
      dropWhile_append_all _ _ _ hgp, List.dropWhile_cons_of_neg (by simp [hc0])]
  have hbl : beforeLastNewline (name ++ '\n' :: good) = some name :=
    beforeLastNewline_append name good hnn hgn
  have hnameE : name.isEmpty = false := by
    cases name with
    | nil => exact absurd rfl hnne
    | cons c cs => rfl
  simp only [matchName, hrun, hdrop, hbl, List.isEmpty_cons, hnameE]
  rfl

theorem reNameSearch_clean (name good tail2 : List Char) (c0 : Char)
    (hnne : name ≠ []) (hnp : ∀ c ∈ name, nameRunPred c = true) (hnn : '\n' ∉ name)
    (hgp : ∀ c ∈ good, nameRunPred c = true) (hgn : '\n' ∉ good)
    (hc0 : nameRunPred c0 = false) :
    reNameSearch (name ++ '\n' :: (good ++ c0 :: tail2)) = some name := by
  unfold reNameSearch
  rw [matchName_clean name good tail2 c0 hnne hnp hnn hgp hgn hc0]

/-! ## RE_META on the written file -/

theorem metaSplit_none (l : List Char) (h : '=' ∉ l) : metaSplit l = none := by
  induction l with
  | nil => rfl
  | cons c cs ih =>
    have hc : ¬ c = '=' := fun he => h (he ▸ List.mem_cons_self c cs)
    have hcs := ih (fun he => h (List.mem_cons_of_mem c he))
    simp [metaSplit, hcs, hc]

theorem metaSplit_append (a b : List Char) (ha : '=' ∉ a) (hb : '=' ∉ b)
    (hbne : b ≠ []) : metaSplit (a ++ '=' :: b) = some (a, b) := by
  induction a with
  | nil => simp [metaSplit, metaSplit_none b hb, hbne]
  | cons c cs ih =>
    have hcs := ih (fun he => ha (List.mem_cons_of_mem c he))
    simp [metaSplit, hcs]

theorem metaLine_none (l : List Char) (h : '=' ∉ l) : metaLine l = none := by
  simp [metaLine, metaSplit_none l h]

theorem metaLine_eq (a b : List Char) (ha : '=' ∉ a) (hane : a ≠ [])
    (hb : '=' ∉ b) (hbne : b ≠ []) :
    metaLine (a ++ '=' :: b) = some (a, b) := by
  have hae : a.isEmpty = false := by
    cases a with
    | nil => exact absurd rfl hane
    | cons c cs => rfl
  simp [metaLine, metaSplit_append a b ha hb hbne, hae]

/-! ## RE_PARAM on the written file -/

theorem paramLine_no_comma (l : List Char) (h : ',' ∉ l) : paramLine l = none := by
  match l with
  | [] => rfl
  | [c] => rfl
  | c1 :: c2 :: rest2 =>
    have hc2 : ¬ c2 = ',' := by
      intro he
      apply h
      rw [he]
      exact List.mem_cons_of_mem _ (List.mem_cons_self _ _)
    cases rest2 with
    | nil => simp [paramLine, hc2]
    | cons c3 r3 =>
      have hc3 : ¬ c3 = ',' := by
        intro he
        apply h
        rw [he]
        exact List.mem_cons_of_mem _ (List.mem_cons_of_mem _ (List.mem_cons_self _ _))
      simp [paramLine, hc2, hc3]

theorem paramLine_head_not_digit (c1 : Char) (rest : List Char)
    (h : c1.isDigit = false) : paramLine (c1 :: rest) = none := by
  cases rest with
  | nil => rfl
  | cons c2 r2 =>
    by_cases hc2 : c2 = ','
    · simp [paramLine, hc2, h]
    · cases r2 with
      | nil => simp [paramLine, hc2]
      | cons c3 r3 =>
        by_cases hc3 : c3 = ','
        · simp [paramLine, hc2, hc3, h]
        · simp [paramLine, hc2, hc3]

theorem allDigits_natPrint (v : Nat) : allDigits (natPrint v) = true := by
  have h1 : (natPrint v).isEmpty = false := by
    cases hh : natPrint v with
    | nil => exact absurd hh (natPrint_ne_nil v)
    | cons c cs => rfl
  unfold allDigits
  rw [h1]
  simp only [Bool.not_false, Bool.true_and, List.all_eq_true]
  exact natPrint_digits v

theorem paramLine_out (i v : Nat) (hi : i < 100) :
    paramLine (paramLineOut i v) = some (i, v) := by
  have hvd := allDigits_natPrint v
  have e2 := charsToNat_natPrint v
  by_cases h0 : i < 10
  · have hpi : natPrint i = [Nat.digitChar i] := natPrint_lt10 i h0
    have hdig : (Nat.digitChar i).isDigit = true := digitChar_isDigit i h0
    have e1 : charsToNat [Nat.digitChar i] = i := by
      rw [← hpi, charsToNat_natPrint]
    rw [paramLineOut, hpi]
    show paramLine (Nat.digitChar i :: ',' :: natPrint v) = some (i, v)
    simp [paramLine, hdig, hvd, e1, e2]
  · have h10 : 10 ≤ i := by omega
    have hpi := natPrint_two i h10 hi
    have hd1 := digitChar_isDigit (i / 10) (by omega)
    have hd2 := digitChar_isDigit (i % 10) (by omega)
    have e1 : charsToNat [Nat.digitChar (i / 10), Nat.digitChar (i % 10)] = i := by
      rw [← hpi, charsToNat_natPrint]
    have hne : ¬ (Nat.digitChar (i % 10) = ',') := (isDigit_ne_specials _ hd2).2.2
    rw [paramLineOut, hpi]
    show paramLine
        (Nat.digitChar (i / 10) :: Nat.digitChar (i % 10) :: ',' :: natPrint v) =
      some (i, v)
    simp [paramLine, hne, hd1, hd2, hvd, e1, e2]

theorem except_ok_bind {α β γ : Type} (a : α) (f : α → Except γ β) :
    (Except.ok a >>= f) = f a := rfl

/-! ## The parameter loop -/

theorem foldlM_procOne (vs : List Nat) (dsPre dsSuf : List Nat)
    (done todo : List (Option Nat))
    (hdone : done.length = dsPre.length)
    (hvs : vs.length = dsSuf.length) (htodo : todo.length = dsSuf.length)
    (hPV : PARAM_VALS = dsPre ++ dsSuf) :
    (List.enumFrom dsPre.length vs).foldlM procOne (done ++ todo) =
      .ok (done ++ updEach vs dsSuf todo) := by
  induction vs generalizing dsPre dsSuf done todo with
  | nil =>
    have hsuf : dsSuf = [] := by
      cases dsSuf with
      | nil => rfl
      | cons d ds => simp at hvs
    subst hsuf
    have htd : todo = [] := List.length_eq_zero.mp htodo
    subst htd
    simp [updEach]
    rfl
  | cons v vs ih =>
    cases dsSuf with
    | nil => simp at hvs
    | cons d ds =>
      cases todo with
      | nil => simp at htodo
      | cons t ts =>
        have hk : PARAM_VALS.get? dsPre.length = some d := by
          rw [hPV]
          exact get?_append_len dsPre d ds
        have hstep : procOne (done ++ t :: ts) (dsPre.length, v) =
            .ok (done ++ (if d = v then t else some v) :: ts) := by
          unfold procOne
          rw [hk]
          by_cases hd : d = v
          · simp [hd]
          · rw [if_neg hd]
            rw [show (done ++ t :: ts).set dsPre.length (some v)
                = done ++ some v :: ts from by
              rw [← hdone]; exact set_append_len done t (some v) ts]
            simp [hd]
        rw [show List.enumFrom dsPre.length (v :: vs)
            = (dsPre.length, v) :: List.enumFrom (dsPre.length + 1) vs from rfl]
        rw [List.foldlM_cons, hstep, except_ok_bind]
        rw [show done ++ (if d = v then t else some v) :: ts
            = (done ++ [if d = v then t else some v]) ++ ts from by simp]
        have hrec := ih (dsPre ++ [d]) ds (done ++ [if d = v then t else some v]) ts
          (by simp [hdone]) (by simpa using hvs) (by simpa using htodo)
          (by rw [hPV]; simp)
        rw [show (dsPre ++ [d]).length = dsPre.length + 1 from by simp] at hrec
        rw [hrec]
        simp [updEach]

theorem fillParams_updEach (vs ds : List Nat) (h : vs.length = ds.length) :
    List.zipWith (fun o d => o.getD d)
        (updEach vs ds (List.replicate ds.length none)) ds = vs := by
  induction vs generalizing ds with
  | nil =>
    cases ds with
    | nil => rfl
    | cons d dd => simp at h
  | cons v vs ih =>
    cases ds with
    | nil => simp at h
    | cons d dd =>
      rw [show List.replicate (d :: dd).length (none : Option Nat)
          = none :: List.replicate dd.length none from rfl]
      rw [show updEach (v :: vs) (d :: dd) (none :: List.replicate dd.length none)
          = (if d = v then none else some v) ::
            updEach vs dd (List.replicate dd.length none) from rfl]
      rw [List.zipWith_cons_cons, ih dd (by simpa using h)]
      by_cases hd : d = v <;> simp [hd]

/-! ## C1: write/read round trip -/

/-- C1 (amended): the round trip holds for records whose name is nonempty,
already stripped, and free of `'='`, `','` and newline, and whose color and
version are nonempty and free of `'='` and newline: `read_patchfile` then
reproduces name, color and version exactly, and the parameter slots read
back unset exactly when they equal the schema default, so filling from the
defaults recovers the written vector.  (Without those conditions the round
trip fails: see the counterexample, where a leading space is stripped.) -/
theorem write_read_roundtrip (bank num name color ver : String) (params : List Nat)
    (hlen : params.length = NUM_PARAMS)
    (hnne : name.data ≠ [])
    (hnstrip : pyStrip name.data = name.data)
    (hnchars : ∀ c ∈ name.data, c ≠ '=' ∧ c ≠ ',' ∧ c ≠ '\n')
    (hcne : color.data ≠ []) (hcchars : ∀ c ∈ color.data, c ≠ '=' ∧ c ≠ '\n')
    (hvne : ver.data ≠ []) (hvchars : ∀ c ∈ ver.data, c ≠ '=' ∧ c ≠ '\n') :
    ∃ ps, read_patchfile bank num (write_patchfile name color ver params) =
        .ok ⟨bank, num, name.data, color.data, ver.data, ps⟩ ∧
      fillParams ps = params := by
  have hnn : '\n' ∉ name.data := fun h => (hnchars _ h).2.2 rfl
  have hneq : '=' ∉ name.data := fun h => (hnchars _ h).1 rfl
  have hncm : ',' ∉ name.data := fun h => (hnchars _ h).2.1 rfl
  have hcn : '\n' ∉ color.data := fun h => (hcchars _ h).2 rfl
  have hceq : '=' ∉ color.data := fun h => (hcchars _ h).1 rfl
  have hvn : '\n' ∉ ver.data := fun h => (hvchars _ h).2 rfl
  have hveq : '=' ∉ ver.data := fun h => (hvchars _ h).1 rfl
  have hnp : ∀ c ∈ name.data, nameRunPred c = true := by
    intro c hcm
    have h3 := hnchars c hcm
    simp [nameRunPred, h3.1, h3.2.1]
  have hlines := write_lines name color ver params hnn hcn hvn
  have hre : reNameSearch (write_patchfile name color ver params) = some name.data := by
    unfold write_patchfile
    exact reNameSearch_clean name.data "color".data _ '=' hnne hnp hnn
      (by decide) (by decide) (by decide)
  have hml1 : metaLine name.data = none := metaLine_none _ hneq
  have hml2 : metaLine ("color".data ++ '=' :: color.data)
      = some ("color".data, color.data) :=
    metaLine_eq _ _ (by decide) (by decide) hceq hcne
  have hml3 : metaLine ("ver".data ++ '=' :: ver.data)
      = some ("ver".data, ver.data) :=
    metaLine_eq _ _ (by decide) (by decide) hveq hvne
  have hml4 : (params.enum.map (fun p => paramLineOut p.1 p.2)).filterMap metaLine
      = [] := by
    rw [List.filterMap_eq_nil_iff]
    intro l hl
    rcases List.mem_map.mp hl with ⟨p, hp, rfl⟩
    exact metaLine_none _ (fun hm => (paramLineOut_mem p.1 p.2 '=' hm).2 rfl)
  have hmeta : metaPairs (write_patchfile name color ver params)
      = [("color".data, color.data), ("ver".data, ver.data)] := by
    unfold metaPairs
    rw [hlines]
    simp only [List.filterMap_cons, hml1, hml2, hml3, List.filterMap_append, hml4,
      show metaLine ([] : List Char) = none from rfl, List.filterMap_nil,
      List.nil_append, List.append_nil]
  have hcolorL : metaLookup [("color".data, color.data), ("ver".data, ver.data)]
      ("color".data) (COLOR_DEF.data) = color.data := rfl
  have hverL : metaLookup [("color".data, color.data), ("ver".data, ver.data)]
      ("ver".data) (VER_DEF.data) = ver.data := rfl
  have hraw : (pySplitChar '\n'
        (write_patchfile name color ver params)).filterMap paramLine
      = params.enum := by
    rw [hlines]
    have hp1 : paramLine name.data = none := paramLine_no_comma _ hncm
    have hp2 : paramLine ("color".data ++ '=' :: color.data) = none := by
      show paramLine ('c' :: ("olor".data ++ '=' :: color.data)) = none
      exact paramLine_head_not_digit 'c' _ (by decide)
    have hp3 : paramLine ("ver".data ++ '=' :: ver.data) = none := by
      show paramLine ('v' :: ("er".data ++ '=' :: ver.data)) = none
      exact paramLine_head_not_digit 'v' _ (by decide)
    have hp4 : (params.enum.map (fun p => paramLineOut p.1 p.2)).filterMap paramLine
        = params.enum := by
      rw [List.filterMap_map]
      apply filterMap_some_id
      intro p hp
      have hb : p.1 < params.length := by
        rcases p with ⟨i, v⟩
        have h1 := List.mk_mem_enum_iff_getElem?.mp hp
        obtain ⟨h2, -⟩ := List.getElem?_eq_some.mp h1
        exact h2
      have hb100 : p.1 < 100 := by
        have h99 : params.length = 99 := hlen
        omega
      have := paramLine_out p.1 p.2 hb100
      simpa using this
    simp only [List.filterMap_cons, hp1, hp2, hp3, List.filterMap_append, hp4,
      show paramLine ([] : List Char) = none from rfl, List.filterMap_nil,
      List.append_nil]
  have hfold : params.enum.foldlM procOne (List.replicate NUM_PARAMS none)
      = .ok (updEach params PARAM_VALS (List.replicate NUM_PARAMS none)) := by
    have h0 := foldlM_procOne params [] PARAM_VALS [] (List.replicate NUM_PARAMS none)
      rfl (by rw [hlen]; rfl) (by simp [NUM_PARAMS]) rfl
    rw [show params.enum = List.enumFrom 0 params from rfl]
    simpa using h0
  refine ⟨updEach params PARAM_VALS (List.replicate NUM_PARAMS none), ?_, ?_⟩
  · simp only [read_patchfile, hre, hmeta, hcolorL, hverL, hraw, hfold, hnstrip]
  · show List.zipWith (fun o d => o.getD d)
        (updEach params PARAM_VALS (List.replicate NUM_PARAMS none)) PARAM_VALS
      = params
    exact fillParams_updEach params PARAM_VALS (by rw [hlen]; rfl)

/-- Counterexample for C1: a record whose name has a leading space does
not round-trip — `read_patchfile` strips the matched name, so `" x"` is
read back as `"x"` (metadata is not reproduced exactly). -/
theorem write_read_not_roundtrip :
    read_patchfile "factory" "001" (write_patchfile " x" "red" "112" PARAM_VALS) =
        .ok ⟨"factory", "001", "x".data, "red".data, "112".data,
          List.replicate NUM_PARAMS none⟩ ∧
      ("x".data : List Char) ≠ (" x".data : List Char) :=
  ⟨rfl, by decide⟩

/-- Witness for C1 on a well-formed concrete record. -/
theorem write_read_roundtrip_witness :
    ∃ ps, read_patchfile "factory" "001"
          (write_patchfile "Pluck" "red" "112" PARAM_VALS) =
        .ok ⟨"factory", "001", "Pluck".data, "red".data, "112".data, ps⟩ ∧
      fillParams ps = PARAM_VALS :=
  write_read_roundtrip "factory" "001" "Pluck" "red" "112" PARAM_VALS rfl
    (by decide) (by decide) (by decide) (by decide) (by decide) (by decide) (by decide)


theorem lookupMasks_ok (db : PatchDB) (tags : List String)
    (h : ∀ t ∈ tags, (tagColumns db).contains t) :
    lookupMasks db tags = .ok (tags.map (tagMask db)) := by
  induction tags with
  | nil => rfl
  | cons t ts ih =>
    have htm : t ∈ tagColumns db := by simpa using h t (List.mem_cons_self t ts)
    have hts := ih (fun u hu => h u (List.mem_cons_of_mem t hu))
    simp [lookupMasks, htm, hts, except_ok_bind]

theorem zipWith_and_map (l : List PatchRow) (f g : PatchRow → Bool) :
    (l.map f).zipWith (fun x y => x && y) (l.map g) = l.map (fun r => f r && g r) := by
  induction l with
  | nil => rfl
  | cons x xs ih => simp [ih]

theorem foldl_and_masks (ts : List String) (db : PatchDB) (f : PatchRow → Bool) :
    (ts.map (tagMask db)).foldl
        (fun a b => a.zipWith (fun x y => x && y) b) (db.rows.map f) =
      db.rows.map (fun r => f r && ts.all (fun t => (splitTags r.tags).contains t)) := by
  induction ts generalizing f with
  | nil => simp
  | cons t ts ih =>
    simp only [List.map_cons, List.foldl_cons, tagMask]
    rw [zipWith_and_map, ih]
    have : (fun r => (f r && (splitTags r.tags).contains t) &&
        ts.all (fun u => (splitTags r.tags).contains u)) =
        (fun r => f r && (t :: ts).all (fun u => (splitTags r.tags).contains u)) := by
      funext r
      simp [Bool.and_assoc]
    rw [this]

theorem zip_filter_map (l : List PatchRow) (f : PatchRow → Bool) :
    ((l.zip (l.map f)).filter (fun p => p.2)).map (fun p => metaOfRow p.1) =
      (l.filter f).map metaOfRow := by
  induction l with
  | nil => rfl
  | cons x xs ih =>
    simp only [List.map_cons, List.zip_cons_cons, List.filter_cons]
    cases h : f x <;> simp [h, ih]

/-- C5 (amended): for every nonempty tag list whose tags all occur as tag
columns, `find_patches_by_tags` returns exactly the metadata of the rows
whose tag set is a superset of the query (logical AND).  The empty list
raises (see the counterexample) instead of returning everything. -/
theorem find_patches_by_tags_superset (db : PatchDB) (tags : List String)
    (hne : tags ≠ []) (hcols : ∀ t ∈ tags, (tagColumns db).contains t) :
    find_patches_by_tags db tags =
      .ok ((db.rows.filter
          (fun r => tags.all (fun t => (splitTags r.tags).contains t))).map metaOfRow) := by
  obtain ⟨t, ts, rfl⟩ := List.exists_cons_of_ne_nil hne
  have hmask := lookupMasks_ok db (t :: ts) hcols
  simp only [find_patches_by_tags, hmask, List.map_cons]
  have htm : tagMask db t = db.rows.map (fun r => (splitTags r.tags).contains t) := rfl
  rw [htm, foldl_and_masks, zip_filter_map]
  simp [List.all_cons]

/-- Counterexample for C5: on a database with one (tagged) patch,
`find_patches_by_tags []` raises a `KeyError` (from `df.loc[True]`)
instead of returning the metadata of all patches. -/
theorem find_patches_by_tags_empty_raises :
    find_patches_by_tags
        ⟨[⟨"factory", some "001", "pluck", some "red", "112", "Bass", [1, 2]⟩],
          none, false, false⟩ [] = .error .keyErrorLoc ∧
      (Except.error .keyErrorLoc :
          Except DbErr (List (String × Option String × String × Option String × String × String))) ≠
        .ok [metaOfRow ⟨"factory", some "001", "pluck", some "red", "112", "Bass", [1, 2]⟩] := by
  exact ⟨rfl, fun h => Except.noConfusion h⟩

/-- Witness for C5: a concrete two-row database queried with
`["Bass", "Lead"]` keeps exactly the row tagged with both. -/
theorem find_patches_by_tags_superset_witness :
    find_patches_by_tags
        ⟨[⟨"a", some "001", "p1", some "red", "112", "Bass|Lead|Pad", [1]⟩,
          ⟨"a", some "002", "p2", some "red", "112", "Bass", [2]⟩],
          none, false, false⟩ ["Bass", "Lead"] =
      .ok [("a", some "001", "p1", some "red", "112", "Bass|Lead|Pad")] := by
  have h := find_patches_by_tags_superset
    ⟨[⟨"a", some "001", "p1", some "red", "112", "Bass|Lead|Pad", [1]⟩,
      ⟨"a", some "002", "p2", some "red", "112", "Bass", [2]⟩],
      none, false, false⟩ ["Bass", "Lead"] (by simp) (by decide)
  rw [h]
  rfl

/-! ## Chunk encoder lemmas (C2, C3) -/

theorem except_pure_bind {α β γ : Type} (a : α) (f : α → Except γ β) :
    ((pure a : Except γ α) >>= f) = f a := rfl

theorem except_error_bind {α β γ : Type} (e : γ) (f : α → Except γ β) :
    ((Except.error e : Except γ α) >>= f) = .error e := rfl

theorem S1_IGNORE_IDX_eq : S1_IGNORE_IDX = [86, 87, 88, 89] := by decide

theorem packList_fold (l : List Int) (acc : List Nat)
    (h : ∀ x ∈ l, -(2 ^ 31) ≤ x ∧ x < 2 ^ 31) :
    l.foldlM (fun acc x => do
        let xb ← packIntBytes x
        pure (acc ++ [0, 0, 0, 1] ++ xb)) acc =
      .ok (acc ++
        (l.map (fun x => [0, 0, 0, 1] ++ toBytesBE4 (x % 2 ^ 32).toNat)).flatten) := by
  induction l generalizing acc with
  | nil => simp; rfl
  | cons x xs ih =>
    have hx := h x (List.mem_cons_self x xs)
    have hpk : packIntBytes x = .ok (toBytesBE4 (x % 2 ^ 32).toNat) := by
      unfold packIntBytes
      rw [if_pos hx]
    rw [List.foldlM_cons, hpk, except_ok_bind, except_pure_bind,
      ih _ (fun y hy => h y (List.mem_cons_of_mem x hy))]
    simp

theorem packList_ok (l : List Int)
    (h : ∀ x ∈ l, -(2 ^ 31) ≤ x ∧ x < 2 ^ 31) :
    packList l = .ok (xdrIntListSpec l) := by
  unfold packList xdrIntListSpec
  rw [packList_fold l [] h, except_ok_bind]
  simp only [List.nil_append]
  rfl

theorem npDelete_subset {α : Type} (l : List α) (idxs : List Nat) :
    ∀ x ∈ npDelete l idxs, x ∈ l := by
  intro x hx
  unfold npDelete at hx
  rcases List.mem_map.mp hx with ⟨p, hp, rfl⟩
  have hpe := (List.mem_filter.mp hp).1
  rcases p with ⟨i, v⟩
  have h1 := List.mk_mem_enum_iff_getElem?.mp hpe
  exact List.getElem?_mem h1

/-- C2: for every 99-entry int32 parameter vector and byte-sized version,
the chunk is the fixed header bytes (with the version byte at its fixed
offset), then the XDR list of the 95 parameters remaining after removing
indices 86-89, its leading 4-byte word removed, the 32-byte filler spliced
at `0x2AC` and bytes `0x48`-`0x4E` reversed, then the fixed footer bytes
(again carrying the version byte). -/
theorem make_fxp_chunk_layout (params : List Int) (ver : Nat)
    (hlen : params.length = 99)
    (hrange : ∀ x ∈ params, -(2 ^ 31) ≤ x ∧ x < 2 ^ 31)
    (hver : ver ≤ 255) :
    make_fxp_chunk params ver =
      .ok ((SYNTH1_MAGIC ++ List.replicate 11 0 ++ [2] ++ List.replicate 527 0 ++
          [ver] ++ List.replicate 4 0 ++ [1] ++ List.replicate 2 0 ++ [1]) ++
        s1ListBufSpec params ++
        (List.replicate 1207 0 ++ [1] ++ List.replicate 3 0 ++ [ver] ++
          List.replicate 3 0 ++ [1] ++ List.replicate 7 0 ++ [1] ++
          List.replicate 15 0 ++ [1] ++ List.replicate 3 0 ++ [0x40] ++
          List.replicate 19 0)) := by
  have hrange2 : ∀ x ∈ npDelete params S1_IGNORE_IDX, -(2 ^ 31) ≤ x ∧ x < 2 ^ 31 :=
    fun x hx => hrange x (npDelete_subset params S1_IGNORE_IDX x hx)
  have hpl := packList_ok (npDelete params S1_IGNORE_IDX) hrange2
  have hhd : s1_chunk_header ver =
      .ok (SYNTH1_MAGIC ++ List.replicate 11 0 ++ [2] ++ List.replicate 527 0 ++
        [ver] ++ List.replicate 4 0 ++ [1] ++ List.replicate 2 0 ++ [1]) := by
    unfold s1_chunk_header
    rw [if_pos hver]
  have hft : s1_chunk_footer ver =
      .ok (List.replicate 1207 0 ++ [1] ++ List.replicate 3 0 ++ [ver] ++
        List.replicate 3 0 ++ [1] ++ List.replicate 7 0 ++ [1] ++
        List.replicate 15 0 ++ [1] ++ List.replicate 3 0 ++ [0x40] ++
        List.replicate 19 0) := by
    unfold s1_chunk_footer
    rw [if_pos hver]
  unfold make_fxp_chunk
  rw [if_neg (by omega)]
  simp only [hpl, except_ok_bind, hhd, hft, except_pure_bind]
  unfold s1ListBufSpec
  rw [S1_IGNORE_IDX_eq]
  have hdel : ∀ X : List Nat, pyDelRange 0 4 X = X.drop 4 := fun _ => rfl
  rw [hdel, show S1_IGNORED_OFFSET = 0x2AC from rfl]
  rfl

/-- Witness for C2 at the default parameter vector and version 112. -/
theorem make_fxp_chunk_layout_witness :
    make_fxp_chunk (PARAM_VALS.map Int.ofNat) 112 =
      .ok ((SYNTH1_MAGIC ++ List.replicate 11 0 ++ [2] ++ List.replicate 527 0 ++
          [112] ++ List.replicate 4 0 ++ [1] ++ List.replicate 2 0 ++ [1]) ++
        s1ListBufSpec (PARAM_VALS.map Int.ofNat) ++
        (List.replicate 1207 0 ++ [1] ++ List.replicate 3 0 ++ [112] ++
          List.replicate 3 0 ++ [1] ++ List.replicate 7 0 ++ [1] ++
          List.replicate 15 0 ++ [1] ++ List.replicate 3 0 ++ [0x40] ++
          List.replicate 19 0)) :=
  make_fxp_chunk_layout (PARAM_VALS.map Int.ofNat) 112 (by decide) (by decide)
    (by decide)

theorem packIntBytes_error (x : Int) (e : S1Err) (h : packIntBytes x = .error e) :
    e = .packRange x := by
  unfold packIntBytes at h
  split at h
  · exact absurd h (by simp)
  · have := h
    simp only [Except.error.injEq] at this
    exact this.symm

theorem packList_fold_error (l : List Int) (acc : List Nat) (e : S1Err)
    (h : l.foldlM (fun acc x => do
        let xb ← packIntBytes x
        pure (acc ++ [0, 0, 0, 1] ++ xb)) acc = .error e) :
    ∃ x, e = .packRange x := by
  induction l generalizing acc with
  | nil => exact Except.noConfusion h
  | cons x xs ih =>
    rw [List.foldlM_cons] at h
    cases hpk : packIntBytes x with
    | error e2 =>
      rw [hpk] at h
      have h2 : (Except.error e2 : Except S1Err (List Nat)) = .error e := h
      simp only [Except.error.injEq] at h2
      exact ⟨x, h2 ▸ packIntBytes_error x e2 hpk⟩
    | ok bs =>
      rw [hpk, except_ok_bind, except_pure_bind] at h
      exact ih _ h

theorem packList_error (l : List Int) (e : S1Err) (h : packList l = .error e) :
    ∃ x, e = .packRange x := by
  unfold packList at h
  cases hf : l.foldlM (fun acc x => do
      let xb ← packIntBytes x
      pure (acc ++ [0, 0, 0, 1] ++ xb)) [] with
  | error e2 =>
    rw [hf, except_error_bind] at h
    simp only [Except.error.injEq] at h
    obtain ⟨x, hx⟩ := packList_fold_error l [] e2 hf
    exact ⟨x, h ▸ hx⟩
  | ok body =>
    rw [hf, except_ok_bind] at h
    exact Except.noConfusion h

/-- C3: `make_fxp_chunk` raises the length `ValueError` exactly for
vectors whose length differs from 99; a 99-entry vector never produces a
length error (any remaining failure is a packing range error). -/
theorem make_fxp_chunk_length_guard (params : List Int) (ver : Nat) :
    (params.length ≠ 99 →
        make_fxp_chunk params ver = .error (.badLength params.length)) ∧
      (params.length = 99 →
        ∀ n, make_fxp_chunk params ver ≠ .error (.badLength n)) := by
  constructor
  · intro h
    unfold make_fxp_chunk
    rw [if_pos h]
  · intro h99 n hbad
    unfold make_fxp_chunk at hbad
    rw [if_neg (by omega)] at hbad
    cases hpl : packList (npDelete params S1_IGNORE_IDX) with
    | error e =>
      rw [hpl, except_error_bind] at hbad
      simp only [Except.error.injEq] at hbad
      obtain ⟨x, hx⟩ := packList_error _ _ hpl
      exact S1Err.noConfusion (hx ▸ hbad)
    | ok buf =>
      rw [hpl, except_ok_bind] at hbad
      cases hhd : s1_chunk_header ver with
      | error e =>
        have he : e = .packRange (ver : Int) := by
          unfold s1_chunk_header at hhd
          split at hhd
          · exact Except.noConfusion hhd
          · simp only [Except.error.injEq] at hhd
            exact hhd.symm
        rw [hhd, except_error_bind] at hbad
        simp only [Except.error.injEq] at hbad
        exact S1Err.noConfusion (he ▸ hbad)
      | ok hd =>
        rw [hhd, except_ok_bind] at hbad
        cases hft : s1_chunk_footer ver with
        | error e =>
          have he : e = .packRange (ver : Int) := by
            unfold s1_chunk_footer at hft
            split at hft
            · exact Except.noConfusion hft
            · simp only [Except.error.injEq] at hft
              exact hft.symm
          rw [hft, except_error_bind] at hbad
          simp only [Except.error.injEq] at hbad
          exact S1Err.noConfusion (he ▸ hbad)
        | ok ft =>
          rw [hft, except_ok_bind] at hbad
          exact Except.noConfusion hbad

/-- Witness for C3: a length-1 vector is rejected with the length error;
a 99-entry vector does not produce one. -/
theorem make_fxp_chunk_length_guard_witness :
    make_fxp_chunk [(0 : Int)] 112 = .error (.badLength 1) ∧
      make_fxp_chunk (List.replicate 99 (0 : Int)) 112 ≠ .error (.badLength 99) :=
  ⟨(make_fxp_chunk_length_guard [(0 : Int)] 112).1 (by decide),
    (make_fxp_chunk_length_guard (List.replicate 99 (0 : Int)) 112).2 (by decide) 99⟩

/-! ## FXP container lemmas (C4) -/

theorem toBytesBE4_length (n : Nat) : (toBytesBE4 n).length = 4 := rfl

theorem pad28_length (l : List Nat) : (pad28 l).length = 28 := by
  unfold pad28
  simp only [List.length_append, List.length_take, List.length_replicate]
  omega

theorem flatten_map_length (f32 : Float → List Nat)
    (hf : ∀ x, (f32 x).length = 4) (ps : List Float) :
    ((ps.map f32).flatten).length = 4 * ps.length := by
  induction ps with
  | nil => simp
  | cons x xs ih =>
    simp only [List.map_cons, List.flatten_cons, List.length_append, ih, hf x,
      List.length_cons]
    ring

theorem packI32_nat (n : Nat) (h : (n : Int) < 2 ^ 31) :
    packI32 (n : Int) = .ok (toBytesBE4 n) := by
  unfold packI32
  rw [if_pos ⟨by omega, h⟩]
  have he : (((n : Int)) % 2 ^ 32).toNat = n := by omega
  rw [he]

/-- C4: `write_fxp` writes the `CcnK` magic, then a big-endian 32-bit
total size equal to the number of bytes that follow the size field.  The
float-array variant tags the payload `FxCk` and appends
`parameter-count` 4-byte floats; the chunk variant tags it `FPCh` and
appends a 4-byte big-endian length followed by the raw chunk.  Both carry
format version 1, plugin id, plugin version, parameter count and a
28-byte fixed-width label. -/
theorem write_fxp_layout (f32 : Float → List Nat) (hf : ∀ x, (f32 x).length = 4) :
    (∀ (base : FxpBase) (ps : List Float) (n : Nat),
      base.num_params.getD ps.length = n → ps.length = n →
      -(2 ^ 31) ≤ base.plugin_id → base.plugin_id < 2 ^ 31 →
      -(2 ^ 31) ≤ base.plugin_version.getD 1 → base.plugin_version.getD 1 < 2 ^ 31 →
      (n : Int) < 2 ^ 28 →
      ∃ rest, write_fxp f32 (.params base ps) =
          .ok (CHUNK_MAGIC ++ toBytesBE4 (48 + 4 * n) ++ rest) ∧
        rest.length = 48 + 4 * n ∧
        rest = FX_MAGIC_PARAMS ++ toBytesBE4 1 ++
          toBytesBE4 (base.plugin_id % 2 ^ 32).toNat ++
          toBytesBE4 (base.plugin_version.getD 1 % 2 ^ 32).toNat ++
          toBytesBE4 n ++ pad28 (encodeLatin1 base.label) ++
          (ps.map f32).flatten) ∧
    (∀ (base : FxpBase) (ch : List Nat),
      -(2 ^ 31) ≤ base.plugin_id → base.plugin_id < 2 ^ 31 →
      -(2 ^ 31) ≤ base.plugin_version.getD 1 → base.plugin_version.getD 1 < 2 ^ 31 →
      ((ch.length : Int) < 2 ^ 28) →
      ((base.num_params.getD (ch.length / 4) : Int) < 2 ^ 31) →
      ∃ rest, write_fxp f32 (.chunk base ch) =
          .ok (CHUNK_MAGIC ++ toBytesBE4 (52 + ch.length) ++ rest) ∧
        rest.length = 52 + ch.length ∧
        rest = FX_MAGIC_CHUNK ++ toBytesBE4 1 ++
          toBytesBE4 (base.plugin_id % 2 ^ 32).toNat ++
          toBytesBE4 (base.plugin_version.getD 1 % 2 ^ 32).toNat ++
          toBytesBE4 (base.num_params.getD (ch.length / 4)) ++
          pad28 (encodeLatin1 base.label) ++
          toBytesBE4 ch.length ++ ch) := by
  constructor
  · intro base ps n hn hcount hid1 hid2 hv1 hv2 hsize
    subst hcount
    refine ⟨_, ?_, ?_, rfl⟩
    · have hsz : packI32 (56 - 8 + 4 * (ps.length : Int)) =
          .ok (toBytesBE4 (48 + 4 * ps.length)) := by
        have he : (56 : Int) - 8 + 4 * (ps.length : Int)
            = ((48 + 4 * ps.length : Nat) : Int) := by
          push_cast
          ring
        rw [he]
        exact packI32_nat _ (by push_cast; omega)
      have hid : packI32 base.plugin_id =
          .ok (toBytesBE4 (base.plugin_id % 2 ^ 32).toNat) := by
        unfold packI32
        rw [if_pos ⟨hid1, hid2⟩]
      have hvv : packI32 (base.plugin_version.getD 1) =
          .ok (toBytesBE4 (base.plugin_version.getD 1 % 2 ^ 32).toNat) := by
        unfold packI32
        rw [if_pos ⟨hv1, hv2⟩]
      have hnp : packI32 ((ps.length : Nat) : Int) = .ok (toBytesBE4 ps.length) :=
        packI32_nat _ (by omega)
      simp only [write_fxp, hn, hsz, hid, hvv, hnp, except_ok_bind]
      simp
      try rfl
    · simp only [List.length_append, pad28_length, flatten_map_length f32 hf,
        toBytesBE4_length]
      have h4 : CHUNK_MAGIC.length = 4 := rfl
      have h5 : FX_MAGIC_PARAMS.length = 4 := rfl
      omega
  · intro base ch hid1 hid2 hv1 hv2 hsize hnpr
    refine ⟨_, ?_, ?_, rfl⟩
    · have hsz : packI32 ((56 - 8) + 4 + (ch.length : Int)) =
          .ok (toBytesBE4 (52 + ch.length)) := by
        have he : ((56 : Int) - 8) + 4 + (ch.length : Int)
            = ((52 + ch.length : Nat) : Int) := by
          push_cast
          ring
        rw [he]
        exact packI32_nat _ (by push_cast; omega)
      have hcs : packI32 ((ch.length : Nat) : Int) = .ok (toBytesBE4 ch.length) :=
        packI32_nat _ (by omega)
      have hid : packI32 base.plugin_id =
          .ok (toBytesBE4 (base.plugin_id % 2 ^ 32).toNat) := by
        unfold packI32
        rw [if_pos ⟨hid1, hid2⟩]
      have hvv : packI32 (base.plugin_version.getD 1) =
          .ok (toBytesBE4 (base.plugin_version.getD 1 % 2 ^ 32).toNat) := by
        unfold packI32
        rw [if_pos ⟨hv1, hv2⟩]
      have hnp : packI32 ((base.num_params.getD (ch.length / 4) : Nat) : Int) =
          .ok (toBytesBE4 (base.num_params.getD (ch.length / 4))) :=
        packI32_nat _ hnpr
      simp only [write_fxp, hcs, hsz, hid, hvv, hnp, except_ok_bind]
      try simp
      try rfl
    · simp only [List.length_append, pad28_length, toBytesBE4_length]
      have h4 : CHUNK_MAGIC.length = 4 := rfl
      have h5 : FX_MAGIC_CHUNK.length = 4 := rfl
      omega

/-- Witness for C4: both container variants at concrete presets, with a
constant 4-byte float encoder. -/
theorem write_fxp_layout_witness :
    (∃ rest, write_fxp (fun _ => [0, 0, 0, 0])
          (.params ⟨1395742323, none, "patch", some 2⟩ [0.5, 0.25]) =
        .ok (CHUNK_MAGIC ++ toBytesBE4 (48 + 4 * 2) ++ rest) ∧
      rest.length = 48 + 4 * 2) ∧
    (∃ rest, write_fxp (fun _ => [0, 0, 0, 0])
          (.chunk ⟨1395742323, none, "patch", some 99⟩ [1, 2, 3]) =
        .ok (CHUNK_MAGIC ++ toBytesBE4 (52 + 3) ++ rest) ∧
      rest.length = 52 + 3) := by
  constructor
  · obtain ⟨rest, h1, h2, h3⟩ := (write_fxp_layout (fun _ => [0, 0, 0, 0])
      (fun _ => rfl)).1 ⟨1395742323, none, "patch", some 2⟩ [0.5, 0.25] 2
      rfl rfl (by decide) (by decide) (by decide) (by decide) (by decide)
    exact ⟨rest, h1, h2⟩
  · obtain ⟨rest, h1, h2, h3⟩ := (write_fxp_layout (fun _ => [0, 0, 0, 0])
      (fun _ => rfl)).2 ⟨1395742323, none, "patch", some 99⟩ [1, 2, 3]
      (by decide) (by decide) (by decide) (by decide) (by decide) (by decide)
    exact ⟨rest, h1, h2⟩

/-! ## bootstrap (C8) -/

theorem mapM_ok_length {α β ε : Type} (f : α → Except ε β) (l : List α)
    (out : List β) (h : l.mapM f = .ok out) : out.length = l.length := by
  induction l generalizing out with
  | nil =>
    rw [List.mapM_nil] at h
    have hout : ([] : List β) = out := Except.ok.inj h
    rw [← hout]
    rfl
  | cons x xs ih =>
    rw [List.mapM_cons] at h
    cases hx : f x with
    | error e =>
      rw [hx, except_error_bind] at h
      exact absurd h (by simp)
    | ok b =>
      rw [hx, except_ok_bind] at h
      cases hxs : xs.mapM f with
      | error e =>
        rw [hxs, except_error_bind] at h
        exact absurd h (by simp)
      | ok bs =>
        rw [hxs, except_ok_bind] at h
        have hout : b :: bs = out := Except.ok.inj h
        rw [← hout]
        simp [ih bs hxs]

/-- C8 (amended): `bootstrap` performs no content-level skipping — it
keeps one patch for every file whose *name* matches the pattern (however
malformed the content, provided parsing raises no exception), and every
patch starts with an empty tag set.  In particular an empty or absent
directory yields an empty database rather than a failure. -/
theorem bootstrap_no_skip (files : List SrcFile) (parsed : List ReadPatch)
    (hp : (files.filter (fun f => fnameMatches f.fname)).mapM
        (fun f => read_patchfile f.bank (String.mk (f.fname.take 3)) f.content)
      = .ok parsed) :
    ∃ db, bootstrap files = .ok db ∧
      db.rows.length = (files.filter (fun f => fnameMatches f.fname)).length ∧
      ∀ r ∈ db.rows, r.tags = "" := by
  simp only [bootstrap]
  rw [hp]
  refine ⟨_, rfl, ?_, ?_⟩
  · simp only [List.length_map]
    exact mapM_ok_length _ _ _ hp
  · intro r hr
    rcases List.mem_map.mp hr with ⟨rp, _, rfl⟩
    rfl

/-- Counterexample for C8: one well-formed file plus one file that fails
the schema sanity check (fewer than four lines) bootstrap into a database
of two patches — the failing file is parsed into a default-valued patch,
not skipped — whereas the claim predicts exactly one patch. -/
theorem bootstrap_includes_failing_file :
    sanity_check ("x".data) = none ∧
      Except.map (fun db => db.rows.length)
          (bootstrap
            [⟨"bankA", ("001.sy1".data), ("Go\ncolor=red\nver=112\n0,3\n".data)⟩,
             ⟨"bankA", ("002.sy1".data), ("x".data)⟩]) = .ok 2 ∧
      (Except.ok 2 : Except RErr Nat) ≠ .ok 1 := by
  refine ⟨rfl, rfl, ?_⟩
  intro h
  exact absurd (Except.ok.inj h) (by decide)

/-- Witness for C8: a matching file and a non-matching file name give a
one-patch database. -/
theorem bootstrap_no_skip_witness :
    Except.map (fun db => db.rows.length)
        (bootstrap
          [⟨"bankA", ("001.sy1".data), ("Go\ncolor=red\nver=112\n0,3\n".data)⟩,
           ⟨"bankA", ("junk.txt".data), ("Go\ncolor=red\nver=112\n0,3\n".data)⟩]) =
      .ok 1 := by
  obtain ⟨db, h1, h2, h3⟩ := bootstrap_no_skip
    [⟨"bankA", ("001.sy1".data), ("Go\ncolor=red\nver=112\n0,3\n".data)⟩,
     ⟨"bankA", ("junk.txt".data), ("Go\ncolor=red\nver=112\n0,3\n".data)⟩] _ rfl
  rw [h1]
  show Except.ok db.rows.length = .ok 1
  rw [h2]
  rfl

/-! ## PatchDatabase: classifier preconditions (C7) -/

/-- C7: on a database where no patch has any tag, `train_classifier`
raises its descriptive error and leaves the whole state (classifier and
flags included) untouched, and `classify_tags` still fails its
trained-model precondition. -/
theorem train_classifier_no_tags (predict : PatchRow → List String) (db : PatchDB)
    (hk : db.knn = none) (ht : ∀ r ∈ db.rows, r.tags = "") :
    train_classifier db = (.error .noTags, db) ∧
      classify_tags predict db = .error .noModel := by
  have hfil : db.rows.filter (fun r => !(r.tags == "")) = [] := by
    apply List.filter_eq_nil_iff.mpr
    intro r hr
    simp [ht r hr]
  constructor
  · simp [train_classifier, hfil]
  · simp [classify_tags, hk]

/-- Witness for C7 on a one-row untagged database. -/
theorem train_classifier_no_tags_witness :
    train_classifier ⟨[⟨"b", some "001", "p", some "red", "112", "", [7]⟩], none, false, false⟩ =
        (.error .noTags, ⟨[⟨"b", some "001", "p", some "red", "112", "", [7]⟩], none, false, false⟩) ∧
      classify_tags (fun _ => [])
          ⟨[⟨"b", some "001", "p", some "red", "112", "", [7]⟩], none, false, false⟩ =
        .error .noModel := by
  exact train_classifier_no_tags (fun _ => [])
    ⟨[⟨"b", some "001", "p", some "red", "112", "", [7]⟩], none, false, false⟩
    rfl (by decide)

/-! ## PatchDatabase: persistence (C9) -/

/-- Counterexample for C9: after a successful save of a modified
database, the state is unchanged (the modified flag is never cleared), so
an immediate second save writes the patch store again instead of
performing no write. -/
theorem to_disk_second_save_writes :
    to_disk ((to_disk ⟨[], none, true, false⟩).1) =
      (⟨[], none, true, false⟩, [StoreWrite.dbStore]) := rfl

/-- C9 (amended): `to_disk` writes the patch store exactly when the
modified flag is set — the flag records "modified since load/bootstrap",
not "since the last save", because no save clears it — it leaves the
database state unchanged, and an immediate second save therefore repeats
exactly the same writes instead of performing none. -/
theorem to_disk_writes_iff_modified (db : PatchDB) :
    (to_disk db).1 = db ∧
      ((to_disk db).2.contains StoreWrite.dbStore ↔ db.modified_db = true) ∧
      (to_disk ((to_disk db).1)).2 = (to_disk db).2 := by
  refine ⟨rfl, ?_, rfl⟩
  cases h : db.modified_db <;> cases h2 : db.knn.isSome && db.modified_cls <;>
    simp [to_disk, h, h2]

end Patch1
